import Mathlib

/-!
Verification development for the pdf-translator-for-human repository.

We shallowly embed the core translation pipeline of `app.py` and
`deep_translator/openai_compatible.py` as executable Lean definitions and
prove properties of them.

Modelling conventions:
* `hashlib.md5(s.encode()).hexdigest()` is modelled by an arbitrary
  function `md5hex : String → String` carried in a `Config`; the code only
  ever takes the first 8 characters of the digest.
* The underlying remote call `ChatGptTranslator.translate` (an external
  HTTP capability) is modelled by an oracle `Nat → ApiOutcome` indexed by
  the number of calls made so far; a `TransState` counts the calls made and
  the total `time.sleep` units performed.
* The filesystem cache directory is modelled by a function
  `String → CacheEntry` from cache keys to the state of the stored file:
  absent, corrupt (present but `pymupdf.open` raises), or good.
* Python exceptions are modelled with `Except`; the pipeline functions
  return the world state reached at the point the exception escaped, so
  that side effects performed before a failure stay observable.
* Streamlit progress/status widgets are UI-layer side effects and are not
  modelled (the spec places the UI layer out of scope).
-/

namespace PdfTranslator

/-! ## Whitespace stripping, modelling Python `str.strip()` -/

/-- ASCII whitespace as recognised by Python `str.strip()`. -/
def isPyWhitespace (c : Char) : Bool :=
  c = ' ' || c = '\t' || c = '\n' || c = '\r' || c = '\x0b' || c = '\x0c'

/-- Model of Python `text.strip()`: drop leading and trailing whitespace. -/
def pyStrip (s : String) : String :=
  ⟨((s.data.dropWhile isPyWhitespace).reverse.dropWhile isPyWhitespace).reverse⟩

/-- Model of Python `text.lower()`, character by character. -/
def pyLower (s : String) : String := ⟨s.data.map Char.toLower⟩

/-! ## The retrying translator, from `deep_translator/openai_compatible.py` -/

/-- Outcome of one call of the underlying `ChatGptTranslator.translate`
(the external OpenAI-compatible HTTP API): a returned string, a
`json.JSONDecodeError`, or any other exception. -/
inductive ApiOutcome : Type
  | ok (s : String)
  | jsonDecodeError
  | otherError (msg : String)
deriving DecidableEq

/-- Whether an API call succeeded. -/
def ApiOutcome.isOk : ApiOutcome → Bool
  | .ok _ => true
  | _ => false

/-- Observable state of the translator: number of underlying API calls
made so far, and total `time.sleep` units elapsed. -/
structure TransState where
  calls : Nat
  sleeps : Nat
deriving DecidableEq

/-- The `for attempt in range(self.retry_count)` loop of
`OpenAICompatibleTranslator.translate`, with `fuel` remaining attempts.
`oracle st.calls` is the outcome of the next underlying API call.  On the
last attempt (`r = 0` remaining after this one) a failure returns the
original text; otherwise the loop sleeps `retry_delay` and retries.  The
`fuel = 0` base case is unreachable from `translate` (retry_count = 3). -/
def retryTranslate (oracle : Nat → ApiOutcome) (text : String) (retry_delay : Nat) :
    Nat → TransState → String × TransState
  | 0, st => (text, st)
  | r + 1, st =>
    let st1 : TransState := ⟨st.calls + 1, st.sleeps⟩
    match oracle st.calls with
    | .ok s => (s, st1)
    | .jsonDecodeError =>
      if r = 0 then (text, st1)
      else retryTranslate oracle text retry_delay r ⟨st1.calls, st1.sleeps + retry_delay⟩
    | .otherError _ =>
      if r = 0 then (text, st1)
      else retryTranslate oracle text retry_delay r ⟨st1.calls, st1.sleeps + retry_delay⟩

/-- `OpenAICompatibleTranslator.translate`: returns whitespace-only input
unchanged with no API call; otherwise runs the retry loop with
`retry_count = 3` and `retry_delay = 1`.  The Python method never raises:
every failure path returns a string, which is why the model is total. -/
def OpenAICompatibleTranslator.translate (oracle : Nat → ApiOutcome)
    (text : String) (st : TransState) : String × TransState :=
  if pyStrip text = "" then (text, st)
  else retryTranslate oracle text 1 3 st

/-! ## Data model of documents and pages -/

/-- A pymupdf rectangle (block bounding box).  Coordinates are modelled as
rationals. -/
structure Rect where
  x0 : Rat
  y0 : Rat
  x1 : Rat
  y1 : Rat
deriving DecidableEq

/-- pymupdf calls a rectangle empty when `x0 ≥ x1` or `y0 ≥ y1`;
`Page.insert_htmlbox` raises on such a rectangle. -/
def Rect.isEmptyRect (r : Rect) : Bool :=
  r.x1 ≤ r.x0 || r.y1 ≤ r.y0

/-- One entry of `page.get_text("blocks", flags=pymupdf.TEXT_DEHYPHENATE)`:
a bounding box and the block text (`block[:4]` and `block[4]`). -/
structure TextBlock where
  bbox : Rect
  text : String
deriving DecidableEq

/-- The fields of `doc.metadata` read by `get_cache_key` via
`dict.get(k, '')`; a missing key is `none`. -/
structure DocInfo where
  title : Option String
  author : Option String
  pagecount : Option String
deriving DecidableEq

/-- A compositing operation applied to a page: `page.draw_rect(bbox,
color=None, fill=WHITE)` or `page.insert_htmlbox(bbox, translated, css)`
where the css colour channels are `int(rgb*255)` of the configured
colour. -/
inductive CompositeOp : Type
  | drawRectWhite (bbox : Rect)
  | insertHtml (bbox : Rect) (translated : String) (r g b : Int)
deriving DecidableEq

/-- A PDF page: its plain text (`get_text("text")`), its extracted text
blocks, and the compositing operations applied to it so far. -/
structure Page where
  text : String
  blocks : List TextBlock
  ops : List CompositeOp
deriving DecidableEq

/-- The page used for out-of-range access (never reached: the pipeline
only indexes pages inside `range(start, min(start+n, page_count))`). -/
def emptyPage : Page := ⟨"", [], []⟩

/-- A PDF document: metadata and pages. -/
structure Doc where
  metadata : DocInfo
  pages : List Page
deriving DecidableEq

/-- Metadata of a freshly created `pymupdf.open()` document. -/
def newDocMeta : DocInfo := ⟨none, none, none⟩

/-! ## Cache model -/

/-- State of the cache file for one key: no file, a file `pymupdf.open`
fails on, or a readable stored document. -/
inductive CacheEntry : Type
  | absent
  | corrupt
  | good (d : Doc)
deriving DecidableEq

/-- Observable events of a pipeline run, in order of occurrence:
invocations of `translator.translate`, the two compositing operations, and
the `logging.error` emitted by `get_cached_translation` on a corrupt
entry. -/
inductive Event : Type
  | translateCalled (text : String)
  | drewRect (bbox : Rect)
  | insertedHtml (bbox : Rect)
  | logCacheLoadError (key : String)
deriving DecidableEq

/-- Event classifiers used to state the ordering property of claim C8. -/
def Event.isTranslateCall : Event → Bool
  | .translateCalled _ => true
  | _ => false

/-- Whether an event is a compositing operation (erase or render). -/
def Event.isCompositeOp : Event → Bool
  | .drewRect _ => true
  | .insertedHtml _ => true
  | _ => false

/-- The property claimed by the spec for a page: every submission to the
translator happens before any compositing operation, i.e. after the first
compositing event no further translator call occurs. -/
def translationsBeforeCompositing (evs : List Event) : Bool :=
  (evs.dropWhile (fun e => !e.isCompositeOp)).all (fun e => !e.isTranslateCall)

/-- Python exceptions that can escape `translate_pdf_pages`. -/
inductive PErr : Type
  | emptyRect
  | saveFailed (key : String)
deriving DecidableEq

/-- Whether an `Except` result is a success. -/
def exceptIsOk {α : Type} : Except PErr α → Bool
  | .ok _ => true
  | .error _ => false

instance {ε α : Type} [DecidableEq ε] [DecidableEq α] : DecidableEq (Except ε α) := fun x y =>
  match x, y with
  | .ok a, .ok b =>
    if h : a = b then isTrue (h ▸ rfl) else isFalse (fun hc => h (Except.ok.inj hc))
  | .error a, .error b =>
    if h : a = b then isTrue (h ▸ rfl) else isFalse (fun hc => h (Except.error.inj hc))
  | .ok _, .error _ => isFalse (fun hc => Except.noConfusion hc)
  | .error _, .ok _ => isFalse (fun hc => Except.noConfusion hc)

/-- Fixed parameters of a run: the md5 hex digest function, the outcome
oracle of the underlying API, and which cache keys `doc.save` fails on. -/
structure Config where
  md5hex : String → String
  oracle : Nat → ApiOutcome
  saveFails : String → Bool

/-- Mutable world threaded through the pipeline: the caller's source
document, the cache directory contents, the translator state and the event
trace. -/
structure World where
  srcDoc : Doc
  cache : String → CacheEntry
  trans : TransState
  events : List Event

/-! ## Cache functions, from `app.py` -/

/-- `get_cache_key(doc_info, page_num, translator_name, target_lang,
text_content)`: md5 of the page text and of
`f"{title}_{author}_{pagecount}"` (each metadata field read with default
`''`), both truncated to 8 hex characters, interpolated into
`f"{doc_hash}_{content_hash}_page{page_num}_{translator_name}_{target_lang}.pdf"`. -/
def get_cache_key (md5hex : String → String) (doc_info : DocInfo) (page_num : Nat)
    (translator_name target_lang text_content : String) : String :=
  let content_hash := (md5hex text_content).take 8
  let doc_id := doc_info.title.getD "" ++ "_" ++ doc_info.author.getD "" ++ "_" ++
    doc_info.pagecount.getD ""
  let doc_hash := (md5hex doc_id).take 8
  doc_hash ++ "_" ++ content_hash ++ "_page" ++ toString page_num ++ "_" ++
    translator_name ++ "_" ++ target_lang ++ ".pdf"

/-- `get_cached_translation(cache_key)`: `None` when the file does not
exist; when `pymupdf.open` raises, a `logging.error` is emitted and `None`
is returned; otherwise the stored document.  The second component is the
emitted log events. -/
def get_cached_translation (cache : String → CacheEntry) (cache_key : String) :
    Option Doc × List Event :=
  match cache cache_key with
  | .absent => (none, [])
  | .corrupt => (none, [.logCacheLoadError cache_key])
  | .good d => (some d, [])

/-- `save_translation_cache(doc, cache_key)`: a bare `doc.save(path)` with
no exception handling; on success the cache now maps the key to the stored
document, on failure the exception escapes. -/
def save_translation_cache (saveFails : String → Bool) (cache : String → CacheEntry)
    (d : Doc) (cache_key : String) : Except PErr (String → CacheEntry) :=
  if saveFails cache_key then .error (.saveFailed cache_key)
  else .ok (fun k => if k = cache_key then .good d else cache k)

/-! ## The page translation pipeline, from `translate_pdf_pages` -/

/-- `COLOR_MAP` of `app.py` (the Python floats `0.8`, `0.5` are the exact
rationals 4/5 and 1/2). -/
def COLOR_MAP : List (String × (Rat × Rat × Rat)) :=
  [("darkred", (mkRat 4 5, mkRat 0 1, mkRat 0 1)),
   ("black", (mkRat 0 1, mkRat 0 1, mkRat 0 1)),
   ("blue", (mkRat 0 1, mkRat 0 1, mkRat 4 5)),
   ("darkgreen", (mkRat 0 1, mkRat 1 2, mkRat 0 1)),
   ("purple", (mkRat 1 2, mkRat 0 1, mkRat 1 2))]

/-- `COLOR_MAP.get(text_color.lower(), COLOR_MAP["darkred"])`. -/
def colorLookup (text_color : String) : Rat × Rat × Rat :=
  ((COLOR_MAP.lookup (pyLower text_color)).getD (mkRat 4 5, mkRat 0 1, mkRat 0 1))

/-- A css colour channel, Python `int(c*255)`: truncation toward zero,
which on a rational `c` is `(c.num * 255) / c.den` with integer
T-division. -/
def cssChannel (c : Rat) : Int := (c.num * 255) / c.den

/-- The `for block in blocks` loop body of the cache-miss branch: per
block, call `translator.translate` on the block text, `draw_rect` the
bounding box with white fill, then `insert_htmlbox` the translated text —
which raises on an empty rectangle.  Events record the order of these
effects; the returned world is the state at normal exit or at the point an
exception escaped. -/
def compositeBlocks (oracle : Nat → ApiOutcome) (rgb : Rat × Rat × Rat) :
    List TextBlock → Page → World → Except PErr Page × World
  | [], pg, w => (.ok pg, w)
  | b :: bs, pg, w =>
    let tr := OpenAICompatibleTranslator.translate oracle b.text w.trans
    let w1 : World := { w with trans := tr.2, events := w.events ++ [.translateCalled b.text] }
    let pg1 : Page := { pg with ops := pg.ops ++ [.drawRectWhite b.bbox] }
    let w2 : World := { w1 with events := w1.events ++ [.drewRect b.bbox] }
    if b.bbox.isEmptyRect then (.error .emptyRect, w2)
    else
      let pg2 : Page := { pg1 with ops := pg1.ops ++
        [.insertHtml b.bbox tr.1 (cssChannel rgb.1) (cssChannel rgb.2.1) (cssChannel rgb.2.2)] }
      let w3 : World := { w2 with events := w2.events ++ [.insertedHtml b.bbox] }
      compositeBlocks oracle rgb bs pg2 w3

/-- The body of the page loop of `translate_pdf_pages` for one
`page_num`: extract the page text, compute the cache key, consult the
cache; on a hit return the cached document unchanged; on a miss copy the
source page into a fresh single-page document, translate and composite
each block, save to the cache (an exception escaping on failure) and
return the new document. -/
def processPage (cfg : Config) (text_color translator_name target_lang : String)
    (w : World) (page_num : Nat) : Except PErr Doc × World :=
  let page := w.srcDoc.pages.getD page_num emptyPage
  let text_content := page.text
  let cache_key := get_cache_key cfg.md5hex w.srcDoc.metadata page_num
    translator_name target_lang text_content
  let got := get_cached_translation w.cache cache_key
  let w1 : World := { w with events := w.events ++ got.2 }
  match got.1 with
  | some cached_doc => (.ok cached_doc, w1)
  | none =>
    let rgb := colorLookup text_color
    match compositeBlocks cfg.oracle rgb page.blocks page w1 with
    | (.error e, w2) => (.error e, w2)
    | (.ok pg, w2) =>
      match save_translation_cache cfg.saveFails w2.cache ⟨newDocMeta, [pg]⟩ cache_key with
      | .error e => (.error e, w2)
      | .ok cache1 => (.ok ⟨newDocMeta, [pg]⟩, { w2 with cache := cache1 })

/-- The cache key `processPage` uses for page `p` of document `doc`. -/
def pageKey (cfg : Config) (translator_name target_lang : String) (doc : Doc) (p : Nat) :
    String :=
  get_cache_key cfg.md5hex doc.metadata p translator_name target_lang
    (doc.pages.getD p emptyPage).text

/-- The page loop of `translate_pdf_pages` over the listed page numbers;
an exception escaping from one page aborts the rest. -/
def runPages (cfg : Config) (text_color translator_name target_lang : String) :
    List Nat → World → Except PErr (List Doc) × World
  | [], w => (.ok [], w)
  | p :: ps, w =>
    match processPage cfg text_color translator_name target_lang w p with
    | (.error e, w1) => (.error e, w1)
    | (.ok d, w1) =>
      match runPages cfg text_color translator_name target_lang ps w1 with
      | (.error e, w2) => (.error e, w2)
      | (.ok ds, w2) => (.ok (d :: ds), w2)

/-- `translate_pdf_pages(doc, doc_bytes, start_page, num_pages, translator,
text_color, translator_name, target_lang)`: iterate the page loop over
`range(start_page, min(start_page + num_pages, doc.page_count))` and return
the accumulated `translated_pages`.  `doc_bytes` is unused in the source
and omitted; the progress bar and status text are unmodelled UI effects. -/
def translate_pdf_pages (cfg : Config) (w : World) (start_page num_pages : Nat)
    (text_color translator_name target_lang : String) :
    Except PErr (List Doc) × World :=
  runPages cfg text_color translator_name target_lang
    (List.range' start_page (min (start_page + num_pages) w.srcDoc.pages.length - start_page)) w

/-- The event trace the cache-miss loop produces for a block list when no
block has an empty bounding box. -/
def blockTrace : List TextBlock → List Event
  | [] => []
  | b :: bs =>
    Event.translateCalled b.text :: Event.drewRect b.bbox :: Event.insertedHtml b.bbox ::
      blockTrace bs

/-- Chain of per-page results: `RunChain cfg tc tn tl w ps ds w'` states
that starting from world `w` the pages `ps` were processed in order, page
`ps[j]` produced `ds[j]`, ending in world `w'`. -/
inductive RunChain (cfg : Config) (tc tn tl : String) :
    World → List Nat → List Doc → World → Prop
  | nil (w : World) : RunChain cfg tc tn tl w [] [] w
  | cons {w w1 w' : World} {p : Nat} {d : Doc} {ps : List Nat} {ds : List Doc}
      (hp : processPage cfg tc tn tl w p = (.ok d, w1))
      (hrest : RunChain cfg tc tn tl w1 ps ds w') :
      RunChain cfg tc tn tl w (p :: ps) (d :: ds) w'

/-! ## Derived characterizations of the block loop (proof machinery) -/

/-- The translator state after the block loop has translated the listed
blocks in order. -/
def transAfter (oracle : Nat → ApiOutcome) : List TextBlock → TransState → TransState
  | [], st => st
  | b :: bs, st =>
    transAfter oracle bs (OpenAICompatibleTranslator.translate oracle b.text st).2

/-- The compositing operations the block loop applies, in order: per block
an erase of its bounding box then a render of its translated text. -/
def opsAfter (oracle : Nat → ApiOutcome) (rgb : Rat × Rat × Rat) :
    List TextBlock → TransState → List CompositeOp
  | [], _ => []
  | b :: bs, st =>
    CompositeOp.drawRectWhite b.bbox ::
      CompositeOp.insertHtml b.bbox (OpenAICompatibleTranslator.translate oracle b.text st).1
        (cssChannel rgb.1) (cssChannel rgb.2.1) (cssChannel rgb.2.2) ::
      opsAfter oracle rgb bs (OpenAICompatibleTranslator.translate oracle b.text st).2

/-- The freshly composited copy of source page `p` produced by the
cache-miss branch. -/
def missPage (cfg : Config) (text_color : String) (doc : Doc) (p : Nat)
    (st : TransState) : Page :=
  let page := doc.pages.getD p emptyPage
  { page with ops := page.ops ++ opsAfter cfg.oracle (colorLookup text_color) page.blocks st }

/-- The fresh single-page document produced by the cache-miss branch. -/
def missDoc (cfg : Config) (text_color : String) (doc : Doc) (p : Nat)
    (st : TransState) : Doc :=
  ⟨newDocMeta, [missPage cfg text_color doc p st]⟩

/-- Every document stored in the cache is a single-page document. -/
def CacheSP (c : String → CacheEntry) : Prop :=
  ∀ k d, c k = .good d → d.pages.length = 1

/-! ## Concrete witness data -/

/-- All-absent cache directory. -/
def cacheEmpty : String → CacheEntry := fun _ => .absent

/-- A block with a normal bounding box. -/
def blockHello : TextBlock := ⟨⟨0, 0, 10, 10⟩, "Hello"⟩

/-- A second normal block. -/
def blockWorld : TextBlock := ⟨⟨0, 20, 10, 30⟩, "World"⟩

/-- A block whose bounding box is empty, so `insert_htmlbox` raises. -/
def blockDegenerate : TextBlock := ⟨⟨3, 3, 3, 3⟩, "Bad"⟩

/-- Document metadata used by the witnesses. -/
def infoW : DocInfo := ⟨some "T", some "A", none⟩

/-- A configuration whose API always succeeds, whose hash is the identity
and whose saves succeed. -/
def cfgOkW : Config := ⟨fun s => s, fun _ => .ok "T", fun _ => false⟩

/-- A configuration identical to `cfgOkW` except every `doc.save` fails. -/
def cfgSaveFailW : Config := ⟨fun s => s, fun _ => .ok "T", fun _ => true⟩

/-- A page with one normal block. -/
def pageOneBlock : Page := ⟨"PageText", [blockHello], []⟩

/-- A page with two normal blocks. -/
def pageTwoBlocks : Page := ⟨"PageText", [blockHello, blockWorld], []⟩

/-- A page whose second block has an empty bounding box. -/
def pageWithBad : Page := ⟨"PageText", [blockHello, blockDegenerate, blockWorld], []⟩

/-- One-page world with an empty cache. -/
def wOne : World := ⟨⟨infoW, [pageOneBlock]⟩, cacheEmpty, ⟨0, 0⟩, []⟩

/-- One-page world whose cache file for every key is corrupt. -/
def wCorrupt : World := ⟨⟨infoW, [pageOneBlock]⟩, fun _ => .corrupt, ⟨0, 0⟩, []⟩

/-- World with one page of two blocks and an empty cache. -/
def wTwoBlocks : World := ⟨⟨infoW, [pageTwoBlocks]⟩, cacheEmpty, ⟨0, 0⟩, []⟩

/-- World with one page containing a degenerate block and an empty cache. -/
def wBadBlock : World := ⟨⟨infoW, [pageWithBad]⟩, cacheEmpty, ⟨0, 0⟩, []⟩

/-- World with two pages of identical text and blocks and an empty cache. -/
def wTwoSamePages : World := ⟨⟨infoW, [pageOneBlock, pageOneBlock]⟩, cacheEmpty, ⟨0, 0⟩, []⟩

/-- The list of translated pages `translate_pdf_pages cfgOkW wOne 0 1 ...`
returns: one fresh single-page document whose page carries the erase and
render of the lone block (darkred is `(0.8, 0, 0)`, so the css colour is
`rgb(204, 0, 0)`). -/
def dsW : List Doc :=
  [⟨newDocMeta, [⟨"PageText", [blockHello],
    [.drawRectWhite ⟨0, 0, 10, 10⟩, .insertHtml ⟨0, 0, 10, 10⟩ "T" 204 0 0]⟩]⟩]

/-! ## Helper lemmas about list append cancellation -/

theorem list_append_cancel_left {α : Type} :
    ∀ (a b c : List α), a ++ b = a ++ c → b = c
  | [], _, _, h => h
  | _ :: xs, b, c, h => by
    injection h with _ h2
    exact list_append_cancel_left xs b c h2

theorem list_append_cancel_right {α : Type} (a b c : List α) (h : a ++ c = b ++ c) :
    a = b := by
  have h' := congrArg List.reverse h
  simp only [List.reverse_append] at h'
  have h2 := list_append_cancel_left c.reverse a.reverse b.reverse h'
  have h3 := congrArg List.reverse h2
  simpa using h3

theorem string_data_append (a b : String) : (a ++ b).data = a.data ++ b.data := by
  cases a; cases b; rfl

theorem string_eq_of_data {a b : String} (h : a.data = b.data) : a = b := by
  cases a; cases b; exact congrArg String.mk h

/-! ## Lemmas about the block loop -/

theorem compositeBlocks_preserves (oracle : Nat → ApiOutcome) (rgb : Rat × Rat × Rat) :
    ∀ (bs : List TextBlock) (pg : Page) (w : World),
      (compositeBlocks oracle rgb bs pg w).2.srcDoc = w.srcDoc ∧
      (compositeBlocks oracle rgb bs pg w).2.cache = w.cache
  | [], _, _ => ⟨rfl, rfl⟩
  | b :: bs, pg, w => by
    simp only [compositeBlocks]
    cases hb : b.bbox.isEmptyRect with
    | true => simp
    | false =>
      simp only [Bool.false_eq_true, if_false]
      exact compositeBlocks_preserves oracle rgb bs _ _

/-- Characterization of a block-loop run in which no bounding box is
empty: it succeeds, appends per block an erase and a render to the page,
advances the translator state block by block, and emits the interleaved
per-block event trace. -/
theorem compositeBlocks_ok (oracle : Nat → ApiOutcome) (rgb : Rat × Rat × Rat) :
    ∀ (bs : List TextBlock) (pg : Page) (w : World),
      (∀ b ∈ bs, b.bbox.isEmptyRect = false) →
      compositeBlocks oracle rgb bs pg w =
        (.ok { pg with ops := pg.ops ++ opsAfter oracle rgb bs w.trans },
          ⟨w.srcDoc, w.cache, transAfter oracle bs w.trans, w.events ++ blockTrace bs⟩)
  | [], pg, w, _ => by
    simp [compositeBlocks, opsAfter, transAfter, blockTrace]
  | b :: bs, pg, w, hnd => by
    have hb : b.bbox.isEmptyRect = false := hnd b (List.mem_cons_self b bs)
    have hnd' : ∀ b' ∈ bs, b'.bbox.isEmptyRect = false :=
      fun b' hb' => hnd b' (List.mem_cons_of_mem b hb')
    simp only [compositeBlocks, hb, Bool.false_eq_true, if_false]
    rw [compositeBlocks_ok oracle rgb bs _ _ hnd']
    simp [opsAfter, transAfter, blockTrace, List.append_assoc]

/-- Characterization of a block-loop run that reaches a block with an
empty bounding box: the blocks before it are translated and composited,
the offending block is translated and its box erased, then
`insert_htmlbox` raises and the exception escapes — later blocks are
never reached. -/
theorem compositeBlocks_err (oracle : Nat → ApiOutcome) (rgb : Rat × Rat × Rat)
    (bad : TextBlock) (hbad : bad.bbox.isEmptyRect = true) (post : List TextBlock) :
    ∀ (pre : List TextBlock) (pg : Page) (w : World),
      (∀ b ∈ pre, b.bbox.isEmptyRect = false) →
      compositeBlocks oracle rgb (pre ++ bad :: post) pg w =
        (.error .emptyRect,
          ⟨w.srcDoc, w.cache, transAfter oracle (pre ++ [bad]) w.trans,
            w.events ++ blockTrace pre ++
              [.translateCalled bad.text, .drewRect bad.bbox]⟩)
  | [], pg, w, _ => by
    simp only [List.nil_append, compositeBlocks, hbad, if_true]
    simp [transAfter, blockTrace]
  | b :: pre, pg, w, hnd => by
    have hb : b.bbox.isEmptyRect = false := hnd b (List.mem_cons_self b pre)
    have hnd' : ∀ b' ∈ pre, b'.bbox.isEmptyRect = false :=
      fun b' hb' => hnd b' (List.mem_cons_of_mem b hb')
    simp only [List.cons_append, List.append_eq, compositeBlocks, hb, Bool.false_eq_true,
      if_false]
    rw [compositeBlocks_err oracle rgb bad hbad post pre _ _ hnd']
    simp [transAfter, blockTrace, List.append_assoc]

/-! ## Lemmas about the per-page loop body -/

/-- A cache hit returns the cached document and leaves the world
untouched: no translator call, no compositing, no cache write. -/
theorem processPage_hit (cfg : Config) (tc tn tl : String) (w : World) (p : Nat) (d : Doc)
    (h : w.cache (pageKey cfg tn tl w.srcDoc p) = .good d) :
    processPage cfg tc tn tl w p = (.ok d, w) := by
  have h' : w.cache (get_cache_key cfg.md5hex w.srcDoc.metadata p tn tl
      (w.srcDoc.pages.getD p emptyPage).text) = .good d := h
  simp only [processPage, get_cached_translation, h']
  simp

/-- A cache miss with no degenerate block: the page is recomputed and the
world gains the per-block event trace; if the save fails the exception
escapes with the cache unchanged, otherwise the fresh single-page
document is returned and written through to the cache under the key. -/
theorem processPage_miss (cfg : Config) (tc tn tl : String) (w : World) (p : Nat)
    (glog : List Event)
    (hent : get_cached_translation w.cache (pageKey cfg tn tl w.srcDoc p) = (none, glog))
    (hnd : ∀ b ∈ (w.srcDoc.pages.getD p emptyPage).blocks, b.bbox.isEmptyRect = false) :
    processPage cfg tc tn tl w p =
      if cfg.saveFails (pageKey cfg tn tl w.srcDoc p) then
        (.error (.saveFailed (pageKey cfg tn tl w.srcDoc p)),
          ⟨w.srcDoc, w.cache,
            transAfter cfg.oracle (w.srcDoc.pages.getD p emptyPage).blocks w.trans,
            w.events ++ glog ++ blockTrace (w.srcDoc.pages.getD p emptyPage).blocks⟩)
      else
        (.ok (missDoc cfg tc w.srcDoc p w.trans),
          ⟨w.srcDoc,
            fun k => if k = pageKey cfg tn tl w.srcDoc p
              then .good (missDoc cfg tc w.srcDoc p w.trans) else w.cache k,
            transAfter cfg.oracle (w.srcDoc.pages.getD p emptyPage).blocks w.trans,
            w.events ++ glog ++ blockTrace (w.srcDoc.pages.getD p emptyPage).blocks⟩) := by
  simp only [pageKey] at hent ⊢
  simp only [processPage, hent]
  rw [compositeBlocks_ok cfg.oracle (colorLookup tc) _ _ _ hnd]
  simp only [save_translation_cache]
  by_cases hs : cfg.saveFails (get_cache_key cfg.md5hex w.srcDoc.metadata p tn tl
      (w.srcDoc.pages.getD p emptyPage).text) = true
  · rw [if_pos hs, if_pos hs]
  · rw [if_neg hs, if_neg hs]
    simp [missDoc, missPage]

/-- Generic trichotomy for one page: a cache hit returning the stored
document with the world untouched, an escaping exception leaving the
source document and cache as they were, or a successful miss writing a
fresh single-page document through to the cache under the page's key. -/
theorem processPage_spec (cfg : Config) (tc tn tl : String) (w : World) (p : Nat) :
    (∃ d, w.cache (pageKey cfg tn tl w.srcDoc p) = .good d ∧
        processPage cfg tc tn tl w p = (.ok d, w)) ∨
    (∃ e w', processPage cfg tc tn tl w p = (.error e, w') ∧
        w'.srcDoc = w.srcDoc ∧ w'.cache = w.cache) ∨
    (∃ pg w', processPage cfg tc tn tl w p = (.ok ⟨newDocMeta, [pg]⟩, w') ∧
        w'.srcDoc = w.srcDoc ∧
        w'.cache = fun k => if k = pageKey cfg tn tl w.srcDoc p
          then .good (⟨newDocMeta, [pg]⟩ : Doc) else w.cache k) := by
  simp only [processPage, get_cached_translation]
  cases hc : w.cache (get_cache_key cfg.md5hex w.srcDoc.metadata p tn tl
      (w.srcDoc.pages.getD p emptyPage).text) with
  | good d =>
    refine Or.inl ⟨d, hc, ?_⟩
    simp
  | absent =>
    have hp := compositeBlocks_preserves cfg.oracle (colorLookup tc)
      (w.srcDoc.pages.getD p emptyPage).blocks (w.srcDoc.pages.getD p emptyPage)
      { w with events := w.events ++ [] }
    rcases hcb : compositeBlocks cfg.oracle (colorLookup tc)
        (w.srcDoc.pages.getD p emptyPage).blocks (w.srcDoc.pages.getD p emptyPage)
        { w with events := w.events ++ [] } with ⟨res, w2⟩
    rw [hcb] at hp
    simp only [hcb]
    cases res with
    | error e => exact Or.inr (Or.inl ⟨e, w2, rfl, hp.1, hp.2⟩)
    | ok pg =>
      simp only [save_translation_cache]
      by_cases hs : cfg.saveFails (get_cache_key cfg.md5hex w.srcDoc.metadata p tn tl
          (w.srcDoc.pages.getD p emptyPage).text) = true
      · simp only [hs, if_true]
        exact Or.inr (Or.inl ⟨_, w2, rfl, hp.1, hp.2⟩)
      · simp only [Bool.not_eq_true] at hs
        simp only [hs, Bool.false_eq_true, if_false]
        refine Or.inr (Or.inr ⟨pg, _, rfl, hp.1, ?_⟩)
        have hw2 : w2.cache = w.cache := hp.2
        funext k
        simp [pageKey, hw2]
  | corrupt =>
    have hp := compositeBlocks_preserves cfg.oracle (colorLookup tc)
      (w.srcDoc.pages.getD p emptyPage).blocks (w.srcDoc.pages.getD p emptyPage)
      { w with events := w.events ++ [.logCacheLoadError (get_cache_key cfg.md5hex
          w.srcDoc.metadata p tn tl (w.srcDoc.pages.getD p emptyPage).text)] }
    rcases hcb : compositeBlocks cfg.oracle (colorLookup tc)
        (w.srcDoc.pages.getD p emptyPage).blocks (w.srcDoc.pages.getD p emptyPage)
        { w with events := w.events ++ [.logCacheLoadError (get_cache_key cfg.md5hex
          w.srcDoc.metadata p tn tl (w.srcDoc.pages.getD p emptyPage).text)] } with ⟨res, w2⟩
    rw [hcb] at hp
    simp only [hcb]
    cases res with
    | error e => exact Or.inr (Or.inl ⟨e, w2, rfl, hp.1, hp.2⟩)
    | ok pg =>
      simp only [save_translation_cache]
      by_cases hs : cfg.saveFails (get_cache_key cfg.md5hex w.srcDoc.metadata p tn tl
          (w.srcDoc.pages.getD p emptyPage).text) = true
      · simp only [hs, if_true]
        exact Or.inr (Or.inl ⟨_, w2, rfl, hp.1, hp.2⟩)
      · simp only [Bool.not_eq_true] at hs
        simp only [hs, Bool.false_eq_true, if_false]
        refine Or.inr (Or.inr ⟨pg, _, rfl, hp.1, ?_⟩)
        have hw2 : w2.cache = w.cache := hp.2
        funext k
        simp [pageKey, hw2]

/-- One page never changes the caller's source document. -/
theorem processPage_srcDoc (cfg : Config) (tc tn tl : String) (w : World) (p : Nat) :
    (processPage cfg tc tn tl w p).2.srcDoc = w.srcDoc := by
  rcases processPage_spec cfg tc tn tl w p with ⟨d, _, heq⟩ | ⟨e, w', heq, h1, _⟩ |
    ⟨pg, w', heq, h1, _⟩
  · rw [heq]
  · rw [heq]; exact h1
  · rw [heq]; exact h1

/-- One page only ever writes `good` entries: an entry that was `good`
before stays `good` (possibly overwritten). -/
theorem processPage_cache_mono (cfg : Config) (tc tn tl : String) (w : World) (p : Nat)
    (k : String) (d : Doc) (h : w.cache k = .good d) :
    ∃ d', (processPage cfg tc tn tl w p).2.cache k = .good d' := by
  rcases processPage_spec cfg tc tn tl w p with ⟨d0, _, heq⟩ | ⟨e, w', heq, _, h2⟩ |
    ⟨pg, w', heq, _, h2⟩
  · rw [heq]; exact ⟨d, h⟩
  · refine ⟨d, ?_⟩
    rw [heq]
    show w'.cache k = .good d
    rw [h2]; exact h
  · by_cases hk : k = pageKey cfg tn tl w.srcDoc p
    · refine ⟨⟨newDocMeta, [pg]⟩, ?_⟩
      rw [heq]
      show w'.cache k = _
      rw [h2]; simp [hk]
    · refine ⟨d, ?_⟩
      rw [heq]
      show w'.cache k = _
      rw [h2]; simp [hk, h]

/-- After a page completes without exception, the cache holds a `good`
entry under that page's key. -/
theorem processPage_ok_key_good (cfg : Config) (tc tn tl : String) (w : World) (p : Nat)
    (d : Doc) (w1 : World) (h : processPage cfg tc tn tl w p = (.ok d, w1)) :
    ∃ d', w1.cache (pageKey cfg tn tl w.srcDoc p) = .good d' := by
  rcases processPage_spec cfg tc tn tl w p with ⟨d0, hg, heq⟩ | ⟨e, w', heq, _, _⟩ |
    ⟨pg, w', heq, _, h2⟩
  · rw [h] at heq
    injection heq with he hw
    subst hw
    exact ⟨d0, hg⟩
  · rw [h] at heq
    injection heq with he hw
    exact Except.noConfusion he
  · rw [h] at heq
    injection heq with he hw
    subst hw
    refine ⟨⟨newDocMeta, [pg]⟩, ?_⟩
    rw [h2]; simp

/-- A page that completes without exception returns a single-page
document whenever the cache only holds single-page documents, and keeps
that cache invariant. -/
theorem processPage_ok_single_page (cfg : Config) (tc tn tl : String) (w : World) (p : Nat)
    (d : Doc) (w1 : World) (h : processPage cfg tc tn tl w p = (.ok d, w1))
    (hsp : CacheSP w.cache) : d.pages.length = 1 ∧ CacheSP w1.cache := by
  rcases processPage_spec cfg tc tn tl w p with ⟨d0, hg, heq⟩ | ⟨e, w', heq, _, _⟩ |
    ⟨pg, w', heq, _, h2⟩
  · rw [h] at heq
    injection heq with he hw
    injection he with hd
    subst hd
    subst hw
    exact ⟨hsp _ _ hg, hsp⟩
  · rw [h] at heq
    injection heq with he hw
    exact Except.noConfusion he
  · rw [h] at heq
    injection heq with he hw
    injection he with hd
    subst hd
    subst hw
    refine ⟨rfl, ?_⟩
    intro k dd hk
    rw [h2] at hk
    by_cases hkk : k = pageKey cfg tn tl w.srcDoc p
    · simp only [hkk, if_pos rfl] at hk
      injection hk with hdd
      rw [← hdd]
      rfl
    · simp only [if_neg hkk] at hk
      exact hsp _ _ hk

/-! ## Lemmas about the page loop -/

theorem runPages_srcDoc (cfg : Config) (tc tn tl : String) :
    ∀ (ps : List Nat) (w : World),
      (runPages cfg tc tn tl ps w).2.srcDoc = w.srcDoc
  | [], _ => rfl
  | p :: ps, w => by
    simp only [runPages]
    split
    next e w1 heq =>
      have h1 := processPage_srcDoc cfg tc tn tl w p
      rw [heq] at h1
      exact h1
    next d w1 heq =>
      have h1 := processPage_srcDoc cfg tc tn tl w p
      rw [heq] at h1
      split
      next e2 w2 heq2 =>
        have h2 := runPages_srcDoc cfg tc tn tl ps w1
        rw [heq2] at h2
        exact h2.trans h1
      next ds w2 heq2 =>
        have h2 := runPages_srcDoc cfg tc tn tl ps w1
        rw [heq2] at h2
        exact h2.trans h1

theorem runPages_cache_mono (cfg : Config) (tc tn tl : String) :
    ∀ (ps : List Nat) (w : World) (k : String) (d : Doc),
      w.cache k = .good d →
      ∃ d', (runPages cfg tc tn tl ps w).2.cache k = .good d'
  | [], _, _, d, h => ⟨d, h⟩
  | p :: ps, w, k, d, h => by
    obtain ⟨d1, h1⟩ := processPage_cache_mono cfg tc tn tl w p k d h
    simp only [runPages]
    split
    next e w1 heq =>
      rw [heq] at h1
      exact ⟨d1, h1⟩
    next dd w1 heq =>
      rw [heq] at h1
      obtain ⟨d2, h2⟩ := runPages_cache_mono cfg tc tn tl ps w1 k d1 h1
      split
      next e2 w2 heq2 =>
        rw [heq2] at h2
        exact ⟨d2, h2⟩
      next ds w2 heq2 =>
        rw [heq2] at h2
        exact ⟨d2, h2⟩

/-- After a successful run over `ps`, every listed page has a `good`
cache entry under its key. -/
theorem runPages_ok_all_good (cfg : Config) (tc tn tl : String) :
    ∀ (ps : List Nat) (w : World) (ds : List Doc) (w' : World),
      runPages cfg tc tn tl ps w = (.ok ds, w') →
      ∀ p ∈ ps, ∃ d, w'.cache (pageKey cfg tn tl w.srcDoc p) = .good d
  | [], _, _, _, _, p, hp => absurd hp (List.not_mem_nil p)
  | q :: ps, w, ds, w', h, p, hp => by
    simp only [runPages] at h
    split at h
    next e w1 heq => exact absurd h (by simp)
    next d w1 heq =>
      split at h
      next e2 w2 heq2 => exact absurd h (by simp)
      next ds2 w2 heq2 =>
        injection h with he hw
        injection he with hds
        have hsrc1 : w1.srcDoc = w.srcDoc := by
          have hh := processPage_srcDoc cfg tc tn tl w q
          rw [heq] at hh
          exact hh
        rcases List.mem_cons.mp hp with hpq | hpts
        · subst hpq
          obtain ⟨d0, h0⟩ := processPage_ok_key_good cfg tc tn tl w p d w1 heq
          obtain ⟨d1, h1⟩ := runPages_cache_mono cfg tc tn tl ps w1 _ d0 h0
          rw [heq2] at h1
          rw [← hw]
          exact ⟨d1, h1⟩
        · obtain ⟨d1, h1⟩ := runPages_ok_all_good cfg tc tn tl ps w1 ds2 w2 heq2 p hpts
          rw [hsrc1] at h1
          rw [← hw]
          exact ⟨d1, h1⟩

/-- When every listed page already has a `good` cache entry, the run hits
the cache on every page and returns with the world exactly as it was: no
translator invocation, no sleep, no cache write, no event. -/
theorem runPages_all_hits (cfg : Config) (tc tn tl : String) :
    ∀ (ps : List Nat) (w : World),
      (∀ p ∈ ps, ∃ d, w.cache (pageKey cfg tn tl w.srcDoc p) = .good d) →
      ∃ ds, runPages cfg tc tn tl ps w = (.ok ds, w)
  | [], w, _ => ⟨[], rfl⟩
  | p :: ps, w, hall => by
    obtain ⟨d, hd⟩ := hall p (List.mem_cons_self p ps)
    have hp := processPage_hit cfg tc tn tl w p d hd
    obtain ⟨ds, hds⟩ := runPages_all_hits cfg tc tn tl ps w
      (fun q hq => hall q (List.mem_cons_of_mem p hq))
    refine ⟨d :: ds, ?_⟩
    simp only [runPages, hp, hds]

/-- A successful run produces one output per listed page, in order. -/
theorem runPages_ok_chain (cfg : Config) (tc tn tl : String) :
    ∀ (ps : List Nat) (w : World) (ds : List Doc) (w' : World),
      runPages cfg tc tn tl ps w = (.ok ds, w') →
      ds.length = ps.length ∧ RunChain cfg tc tn tl w ps ds w'
  | [], w, ds, w', h => by
    simp only [runPages] at h
    injection h with he hw
    injection he with hds
    subst hds
    subst hw
    exact ⟨rfl, RunChain.nil w⟩
  | p :: ps, w, ds, w', h => by
    simp only [runPages] at h
    split at h
    next e w1 heq => exact absurd h (by simp)
    next d w1 heq =>
      split at h
      next e2 w2 heq2 => exact absurd h (by simp)
      next ds2 w2 heq2 =>
        injection h with he hw
        injection he with hds
        subst hds
        subst hw
        obtain ⟨hlen, hchain⟩ := runPages_ok_chain cfg tc tn tl ps w1 ds2 w2 heq2
        exact ⟨by simp [hlen], RunChain.cons heq hchain⟩

/-- A successful run returns only single-page documents when the cache
holds only single-page documents, and maintains that invariant. -/
theorem runPages_ok_single_pages (cfg : Config) (tc tn tl : String) :
    ∀ (ps : List Nat) (w : World) (ds : List Doc) (w' : World),
      runPages cfg tc tn tl ps w = (.ok ds, w') → CacheSP w.cache →
      (∀ d ∈ ds, d.pages.length = 1) ∧ CacheSP w'.cache
  | [], w, ds, w', h, hsp => by
    simp only [runPages] at h
    injection h with he hw
    injection he with hds
    subst hds
    subst hw
    exact ⟨fun d hd => absurd hd (List.not_mem_nil d), hsp⟩
  | p :: ps, w, ds, w', h, hsp => by
    simp only [runPages] at h
    split at h
    next e w1 heq => exact absurd h (by simp)
    next d w1 heq =>
      split at h
      next e2 w2 heq2 => exact absurd h (by simp)
      next ds2 w2 heq2 =>
        injection h with he hw
        injection he with hds
        subst hds
        subst hw
        obtain ⟨hd1, hsp1⟩ := processPage_ok_single_page cfg tc tn tl w p d w1 heq hsp
        obtain ⟨hall, hsp2⟩ := runPages_ok_single_pages cfg tc tn tl ps w1 ds2 w2 heq2 hsp1
        refine ⟨?_, hsp2⟩
        intro dd hdd
        rcases List.mem_cons.mp hdd with hh | hh
        · subst hh; exact hd1
        · exact hall dd hh

/-! ## Lemmas about the retrying translator -/

theorem dropWhile_all_nil {α : Type} (p : α → Bool) :
    ∀ l : List α, l.all p = true → l.dropWhile p = []
  | [], _ => rfl
  | x :: xs, h => by
    simp only [List.all_cons, Bool.and_eq_true] at h
    simp only [List.dropWhile, h.1]
    exact dropWhile_all_nil p xs h.2

theorem pyStrip_of_all_whitespace {s : String} (h : s.data.all isPyWhitespace = true) :
    pyStrip s = "" := by
  unfold pyStrip
  rw [dropWhile_all_nil isPyWhitespace s.data h]
  rfl

/-! ## Claim theorems -/

/-- C7: for every input that is empty or consists only of whitespace,
`OpenAICompatibleTranslator.translate` returns that exact string unchanged
and never invokes the underlying translation capability: the translator
state (API call count and sleep count) is untouched. -/
theorem whitespace_input_no_api_call (oracle : Nat → ApiOutcome) (text : String)
    (st : TransState) (h : text.data.all isPyWhitespace = true) :
    OpenAICompatibleTranslator.translate oracle text st = (text, st) := by
  unfold OpenAICompatibleTranslator.translate
  rw [if_pos (pyStrip_of_all_whitespace h)]

/-- Witness for C7 at the whitespace string `"  \t\n"` and a live oracle:
the input is returned unchanged and no call or sleep is recorded. -/
theorem whitespace_input_no_api_call_witness :
    ("  \t\n").data.all isPyWhitespace = true ∧
      OpenAICompatibleTranslator.translate (fun _ => .ok "X") "  \t\n" ⟨5, 7⟩ =
        ("  \t\n", ⟨5, 7⟩) :=
  ⟨by decide, whitespace_input_no_api_call (fun _ => .ok "X") "  \t\n" ⟨5, 7⟩ (by decide)⟩

/-- A failing attempt that is not the last one: one more call, then a
sleep of `d`, then the loop continues with one attempt fewer. -/
theorem retryTranslate_fail_step (oracle : Nat → ApiOutcome) (text : String) (d r : Nat)
    (st : TransState) (h : (oracle st.calls).isOk = false) :
    retryTranslate oracle text d (r + 2) st =
      retryTranslate oracle text d (r + 1) ⟨st.calls + 1, st.sleeps + d⟩ := by
  rw [retryTranslate]
  cases hc : oracle st.calls with
  | ok s => rw [hc] at h; simp [ApiOutcome.isOk] at h
  | jsonDecodeError => simp
  | otherError m => simp

/-- A failing attempt that is the last one: one more call, no further
sleep, and the original text is returned. -/
theorem retryTranslate_fail_last (oracle : Nat → ApiOutcome) (text : String) (d : Nat)
    (st : TransState) (h : (oracle st.calls).isOk = false) :
    retryTranslate oracle text d 1 st = (text, ⟨st.calls + 1, st.sleeps⟩) := by
  rw [retryTranslate]
  cases hc : oracle st.calls with
  | ok s => rw [hc] at h; simp [ApiOutcome.isOk] at h
  | jsonDecodeError => simp
  | otherError m => simp

/-- C2: for every non-whitespace input, if the underlying capability fails
on every attempt, `OpenAICompatibleTranslator.translate` makes exactly 3
underlying attempts with one `retry_delay = 1` sleep between consecutive
attempts (2 sleep units in total), then returns the original input text
unchanged.  The function is total — no exception reaches the caller. -/
theorem translate_all_fail_three_attempts (oracle : Nat → ApiOutcome) (text : String)
    (st : TransState) (h1 : ¬ pyStrip text = "")
    (h2 : ∀ n, (oracle n).isOk = false) :
    OpenAICompatibleTranslator.translate oracle text st =
      (text, ⟨st.calls + 3, st.sleeps + 2⟩) := by
  unfold OpenAICompatibleTranslator.translate
  rw [if_neg h1]
  have s1 : retryTranslate oracle text 1 3 st =
      retryTranslate oracle text 1 2 ⟨st.calls + 1, st.sleeps + 1⟩ :=
    retryTranslate_fail_step oracle text 1 1 st (h2 st.calls)
  have s2 : retryTranslate oracle text 1 2 ⟨st.calls + 1, st.sleeps + 1⟩ =
      retryTranslate oracle text 1 1 ⟨st.calls + 1 + 1, st.sleeps + 1 + 1⟩ :=
    retryTranslate_fail_step oracle text 1 0 ⟨st.calls + 1, st.sleeps + 1⟩ (h2 (st.calls + 1))
  have s3 : retryTranslate oracle text 1 1 ⟨st.calls + 1 + 1, st.sleeps + 1 + 1⟩ =
      (text, ⟨st.calls + 1 + 1 + 1, st.sleeps + 1 + 1⟩) :=
    retryTranslate_fail_last oracle text 1 ⟨st.calls + 1 + 1, st.sleeps + 1 + 1⟩
      (h2 (st.calls + 1 + 1))
  rw [s1, s2, s3]

/-- Witness for C2: with an oracle that always raises a decode error, a
translator that has already made 4 calls and slept 9 units translates
`"hi"` to `"hi"` after exactly 3 further calls and 2 further sleep units. -/
theorem translate_all_fail_three_attempts_witness :
    ¬ pyStrip "hi" = "" ∧
      OpenAICompatibleTranslator.translate (fun _ => .jsonDecodeError) "hi" ⟨4, 9⟩ =
        ("hi", ⟨7, 11⟩) :=
  ⟨by decide, translate_all_fail_three_attempts (fun _ => .jsonDecodeError) "hi" ⟨4, 9⟩
    (by decide) (fun _ => rfl)⟩

/-- C6: `get_cache_key` deterministically produces the string
`{doc_hash}_{text_hash}_page{page_num}_{translator_name}_{target_lang}.pdf`
where `doc_hash` is the first 8 hex characters of the digest of the
concatenated title, author and page-count metadata fields and `text_hash`
is the first 8 hex characters of the digest of the page text; and (with
all other inputs equal) two texts whose truncated digests differ yield
different keys.  Equal inputs yield equal keys because `get_cache_key` is
a function of its arguments. -/
theorem cache_key_format_and_text_sensitivity (md5hex : String → String)
    (info : DocInfo) (p : Nat) (tn tl : String) :
    (∀ t, get_cache_key md5hex info p tn tl t =
      (md5hex (info.title.getD "" ++ "_" ++ info.author.getD "" ++ "_" ++
          info.pagecount.getD "")).take 8 ++ "_" ++ (md5hex t).take 8 ++ "_page" ++
        toString p ++ "_" ++ tn ++ "_" ++ tl ++ ".pdf") ∧
    (∀ t₁ t₂, (md5hex t₁).take 8 ≠ (md5hex t₂).take 8 →
      get_cache_key md5hex info p tn tl t₁ ≠ get_cache_key md5hex info p tn tl t₂) := by
  constructor
  · intro t; rfl
  · intro t₁ t₂ hne h
    apply hne
    simp only [get_cache_key] at h
    have hd := congrArg String.data h
    simp only [string_data_append, List.append_assoc] at hd
    have h1 := list_append_cancel_left _ _ _ hd
    have h2 := list_append_cancel_left _ _ _ h1
    have h3 := list_append_cancel_right _ _ _ h2
    exact string_eq_of_data h3

/-- Witness for C6: with the identity digest, the texts `"a"` and `"b"`
hash differently and produce different cache keys. -/
theorem cache_key_format_and_text_sensitivity_witness :
    ((fun (s : String) => s) "a").take 8 ≠ ((fun (s : String) => s) "b").take 8 ∧
      get_cache_key (fun s => s) infoW 0 "OpenAI Compatible" "en" "a" ≠
        get_cache_key (fun s => s) infoW 0 "OpenAI Compatible" "en" "b" :=
  ⟨by decide,
    (cache_key_format_and_text_sensitivity (fun s => s) infoW 0 "OpenAI Compatible" "en").2
      "a" "b" (by decide)⟩

/-- C3 (confirmed): a completed call of `translate_pdf_pages` returns
exactly `min(num_pages, page_count - start_page)` (= `max 0` of the same
in integers) translated-page entries, produced from source pages
`start_page, start_page+1, ...` in ascending order (`RunChain`), and when
`start_page` is at or beyond the page count it returns the empty sequence
with the world untouched — the loop body never runs, so no error is
possible. -/
theorem translate_pdf_pages_count_and_order (cfg : Config) (w : World) (s n : Nat)
    (tc tn tl : String)
    (h : exceptIsOk (translate_pdf_pages cfg w s n tc tn tl).1 = true) :
    ∃ ds w', translate_pdf_pages cfg w s n tc tn tl = (.ok ds, w') ∧
      ds.length = min n (w.srcDoc.pages.length - s) ∧
      RunChain cfg tc tn tl w (List.range' s (min n (w.srcDoc.pages.length - s))) ds w' ∧
      (w.srcDoc.pages.length ≤ s → ds = [] ∧ w' = w) := by
  rcases hres : translate_pdf_pages cfg w s n tc tn tl with ⟨res, w'⟩
  cases res with
  | error e =>
    rw [hres] at h
    simp [exceptIsOk] at h
  | ok ds =>
    have hrun : runPages cfg tc tn tl
        (List.range' s (min (s + n) w.srcDoc.pages.length - s)) w = (.ok ds, w') := hres
    have hmin : min (s + n) w.srcDoc.pages.length - s = min n (w.srcDoc.pages.length - s) := by
      omega
    obtain ⟨hlen, hchain⟩ := runPages_ok_chain cfg tc tn tl _ w ds w' hrun
    have hlen' : ds.length = min n (w.srcDoc.pages.length - s) := by
      rw [hlen, List.length_range', hmin]
    have hchain' : RunChain cfg tc tn tl w
        (List.range' s (min n (w.srcDoc.pages.length - s))) ds w' := by
      rw [← hmin]
      exact hchain
    refine ⟨ds, w', rfl, hlen', hchain', ?_⟩
    intro hle
    have h0 : min n (w.srcDoc.pages.length - s) = 0 := by omega
    have hds : ds = [] := List.length_eq_zero.mp (by rw [hlen', h0])
    subst hds
    refine ⟨rfl, ?_⟩
    have h00 : List.range' s (min (s + n) w.srcDoc.pages.length - s) = [] := by
      rw [hmin, h0]
      rfl
    rw [h00] at hrun
    simp only [runPages] at hrun
    injection hrun with he hw
    exact hw.symm

/-- Witness for C3: a 1-page document asked for 3 pages from page 0
yields exactly `min 3 1 = 1` page. -/
theorem translate_pdf_pages_count_and_order_witness :
    exceptIsOk (translate_pdf_pages cfgOkW wOne 0 3 "darkred" "OpenAI Compatible" "en").1 =
      true ∧
    (∃ ds w', translate_pdf_pages cfgOkW wOne 0 3 "darkred" "OpenAI Compatible" "en" =
        (.ok ds, w') ∧
      ds.length = min 3 (wOne.srcDoc.pages.length - 0) ∧
      RunChain cfgOkW "darkred" "OpenAI Compatible" "en" wOne
        (List.range' 0 (min 3 (wOne.srcDoc.pages.length - 0))) ds w' ∧
      (wOne.srcDoc.pages.length ≤ 0 → ds = [] ∧ w' = wOne)) :=
  ⟨by decide, translate_pdf_pages_count_and_order cfgOkW wOne 0 3
    "darkred" "OpenAI Compatible" "en" (by decide)⟩

/-- C1 (counterexample): the cache key includes the page number, so "at
most one external translation call per (document identity, page text,
translator name, target language) tuple" fails: a document whose pages 0
and 1 have identical text (and identical blocks) translates both pages on
a cold cache, making 2 underlying API calls for one such tuple. -/
theorem same_text_two_pages_two_calls :
    (wTwoSamePages.srcDoc.pages.getD 0 emptyPage).text =
      (wTwoSamePages.srcDoc.pages.getD 1 emptyPage).text ∧
    exceptIsOk
      (translate_pdf_pages cfgOkW wTwoSamePages 0 2 "darkred" "OpenAI Compatible" "en").1 =
      true ∧
    (translate_pdf_pages cfgOkW wTwoSamePages 0 2
      "darkred" "OpenAI Compatible" "en").2.trans.calls = 2 := by
  decide

/-- C1 (amended): after a completed run of `translate_pdf_pages`, running
it again with the same parameters from the resulting world takes the
cache-hit branch on every page: it succeeds and returns with the world
exactly as the first run left it — zero underlying translation calls,
zero sleeps, no cache write and no event. -/
theorem second_run_makes_no_underlying_calls (cfg : Config) (w : World) (s n : Nat)
    (tc tn tl : String)
    (h : exceptIsOk (translate_pdf_pages cfg w s n tc tn tl).1 = true) :
    ∃ ds2, translate_pdf_pages cfg (translate_pdf_pages cfg w s n tc tn tl).2 s n tc tn tl =
      (.ok ds2, (translate_pdf_pages cfg w s n tc tn tl).2) := by
  rcases hres : translate_pdf_pages cfg w s n tc tn tl with ⟨res, w1⟩
  cases res with
  | error e =>
    rw [hres] at h
    simp [exceptIsOk] at h
  | ok ds =>
    have hrun : runPages cfg tc tn tl
        (List.range' s (min (s + n) w.srcDoc.pages.length - s)) w = (.ok ds, w1) := hres
    have hsrc : w1.srcDoc = w.srcDoc := by
      have h2 := runPages_srcDoc cfg tc tn tl
        (List.range' s (min (s + n) w.srcDoc.pages.length - s)) w
      rw [hrun] at h2
      exact h2
    have hall := runPages_ok_all_good cfg tc tn tl _ w ds w1 hrun
    have hall2 : ∀ p ∈ List.range' s (min (s + n) w1.srcDoc.pages.length - s),
        ∃ d, w1.cache (pageKey cfg tn tl w1.srcDoc p) = .good d := by
      rw [hsrc]
      exact hall
    obtain ⟨ds2, h2⟩ := runPages_all_hits cfg tc tn tl _ w1 hall2
    exact ⟨ds2, h2⟩

/-- Witness for the amended C1 on a concrete 1-page document. -/
theorem second_run_makes_no_underlying_calls_witness :
    exceptIsOk (translate_pdf_pages cfgOkW wOne 0 1 "darkred" "OpenAI Compatible" "en").1 =
      true ∧
    (∃ ds2, translate_pdf_pages cfgOkW
        (translate_pdf_pages cfgOkW wOne 0 1 "darkred" "OpenAI Compatible" "en").2 0 1
        "darkred" "OpenAI Compatible" "en" =
      (.ok ds2,
        (translate_pdf_pages cfgOkW wOne 0 1 "darkred" "OpenAI Compatible" "en").2)) :=
  ⟨by decide, second_run_makes_no_underlying_calls cfgOkW wOne 0 1
    "darkred" "OpenAI Compatible" "en" (by decide)⟩

/-- C10 (confirmed): `translate_pdf_pages` never modifies the input
document — the source document (pages and metadata) in the final world is
the one passed in, on every path including exceptions — and whenever the
call returns a list and the cache holds only single-page artifacts, every
returned element is a single-page document (fresh on a miss, a cached
single-page artifact on a hit). -/
theorem input_document_unmodified (cfg : Config) (w : World) (s n : Nat)
    (tc tn tl : String) :
    (translate_pdf_pages cfg w s n tc tn tl).2.srcDoc = w.srcDoc ∧
    (∀ ds, (translate_pdf_pages cfg w s n tc tn tl).1 = .ok ds → CacheSP w.cache →
      ∀ d ∈ ds, d.pages.length = 1) := by
  constructor
  · exact runPages_srcDoc cfg tc tn tl _ w
  · intro ds hok hsp
    rcases hres : translate_pdf_pages cfg w s n tc tn tl with ⟨res, w1⟩
    rw [hres] at hok
    cases res with
    | error e => simp at hok
    | ok ds0 =>
      have hds : (Except.ok ds0 : Except PErr (List Doc)) = Except.ok ds := hok
      injection hds with hds2
      subst hds2
      have hrun : runPages cfg tc tn tl
          (List.range' s (min (s + n) w.srcDoc.pages.length - s)) w = (.ok ds0, w1) := hres
      exact (runPages_ok_single_pages cfg tc tn tl _ w ds0 w1 hrun hsp).1

/-- Witness for C10: the single returned document has exactly one page. -/
theorem input_document_unmodified_witness :
    (translate_pdf_pages cfgOkW wOne 0 1 "darkred" "OpenAI Compatible" "en").1 = .ok dsW ∧
    (∀ d ∈ dsW, d.pages.length = 1) :=
  ⟨by decide,
    (input_document_unmodified cfgOkW wOne 0 1 "darkred" "OpenAI Compatible" "en").2 dsW
      (by decide) (fun _ _ hk => nomatch hk)⟩

/-- C5 (confirmed): for a key whose stored artifact exists but is corrupt,
`get_cached_translation` logs the load error and returns `None`;
`translate_pdf_pages`'s page body then treats the key as a miss: it
recomputes the page translation and overwrites the entry under the same
key with the fresh artifact. -/
theorem corrupt_cache_entry_recomputed (cfg : Config) (tc tn tl : String) (w : World)
    (p : Nat)
    (hc : w.cache (pageKey cfg tn tl w.srcDoc p) = .corrupt)
    (hnd : ∀ b ∈ (w.srcDoc.pages.getD p emptyPage).blocks, b.bbox.isEmptyRect = false)
    (hs : cfg.saveFails (pageKey cfg tn tl w.srcDoc p) = false) :
    get_cached_translation w.cache (pageKey cfg tn tl w.srcDoc p) =
      (none, [.logCacheLoadError (pageKey cfg tn tl w.srcDoc p)]) ∧
    processPage cfg tc tn tl w p =
      (.ok (missDoc cfg tc w.srcDoc p w.trans),
        ⟨w.srcDoc,
          fun k => if k = pageKey cfg tn tl w.srcDoc p
            then .good (missDoc cfg tc w.srcDoc p w.trans) else w.cache k,
          transAfter cfg.oracle (w.srcDoc.pages.getD p emptyPage).blocks w.trans,
          w.events ++ [.logCacheLoadError (pageKey cfg tn tl w.srcDoc p)] ++
            blockTrace (w.srcDoc.pages.getD p emptyPage).blocks⟩) := by
  have hget : get_cached_translation w.cache (pageKey cfg tn tl w.srcDoc p) =
      (none, [.logCacheLoadError (pageKey cfg tn tl w.srcDoc p)]) := by
    simp [get_cached_translation, hc]
  refine ⟨hget, ?_⟩
  have hm := processPage_miss cfg tc tn tl w p _ hget hnd
  rw [hm, if_neg (by simp [hs])]

/-- Witness for C5 on a world whose cache is corrupt everywhere. -/
theorem corrupt_cache_entry_recomputed_witness :
    wCorrupt.cache (pageKey cfgOkW "OpenAI Compatible" "en" wCorrupt.srcDoc 0) = .corrupt ∧
    (get_cached_translation wCorrupt.cache
        (pageKey cfgOkW "OpenAI Compatible" "en" wCorrupt.srcDoc 0) =
      (none, [.logCacheLoadError (pageKey cfgOkW "OpenAI Compatible" "en" wCorrupt.srcDoc 0)]) ∧
    processPage cfgOkW "darkred" "OpenAI Compatible" "en" wCorrupt 0 =
      (.ok (missDoc cfgOkW "darkred" wCorrupt.srcDoc 0 wCorrupt.trans),
        ⟨wCorrupt.srcDoc,
          fun k => if k = pageKey cfgOkW "OpenAI Compatible" "en" wCorrupt.srcDoc 0
            then .good (missDoc cfgOkW "darkred" wCorrupt.srcDoc 0 wCorrupt.trans)
            else wCorrupt.cache k,
          transAfter cfgOkW.oracle (wCorrupt.srcDoc.pages.getD 0 emptyPage).blocks
            wCorrupt.trans,
          wCorrupt.events ++
            [.logCacheLoadError (pageKey cfgOkW "OpenAI Compatible" "en" wCorrupt.srcDoc 0)] ++
            blockTrace (wCorrupt.srcDoc.pages.getD 0 emptyPage).blocks⟩)) :=
  ⟨rfl, corrupt_cache_entry_recomputed cfgOkW "darkred" "OpenAI Compatible" "en" wCorrupt 0
    rfl (by decide) rfl⟩

/-- C4 (counterexample): a failing cache write is fatal, not logged and
absorbed: with every `doc.save` failing, `translate_pdf_pages` on a fresh
1-page document raises — no translated-page sequence is returned, so the
page does not "still appear in the returned sequence". -/
theorem cache_write_failure_aborts_translation :
    (translate_pdf_pages cfgSaveFailW wOne 0 1 "darkred" "OpenAI Compatible" "en").1 =
      .error (.saveFailed (pageKey cfgSaveFailW "OpenAI Compatible" "en" wOne.srcDoc 0)) := by
  decide

/-- C4 (amended): `save_translation_cache` is a bare `doc.save` with no
error handling.  On a cache miss with no degenerate block: if the save
fails, the exception escapes the page body (so `translate_pdf_pages`
aborts) and the cache is unchanged; if the save succeeds, the page
completes and the artifact is stored under the key before the page is
returned. -/
theorem cache_write_failure_propagates (cfg : Config) (tc tn tl : String) (w : World)
    (p : Nat) (glog : List Event)
    (hent : get_cached_translation w.cache (pageKey cfg tn tl w.srcDoc p) = (none, glog))
    (hnd : ∀ b ∈ (w.srcDoc.pages.getD p emptyPage).blocks, b.bbox.isEmptyRect = false) :
    (cfg.saveFails (pageKey cfg tn tl w.srcDoc p) = true →
      (processPage cfg tc tn tl w p).1 =
        .error (.saveFailed (pageKey cfg tn tl w.srcDoc p)) ∧
      (processPage cfg tc tn tl w p).2.cache = w.cache) ∧
    (cfg.saveFails (pageKey cfg tn tl w.srcDoc p) = false →
      (processPage cfg tc tn tl w p).1 = .ok (missDoc cfg tc w.srcDoc p w.trans) ∧
      (processPage cfg tc tn tl w p).2.cache (pageKey cfg tn tl w.srcDoc p) =
        .good (missDoc cfg tc w.srcDoc p w.trans)) := by
  have hm := processPage_miss cfg tc tn tl w p glog hent hnd
  constructor
  · intro hs
    rw [hm, if_pos hs]
    exact ⟨rfl, rfl⟩
  · intro hs
    rw [hm, if_neg (by simp [hs])]
    exact ⟨rfl, by simp⟩

/-- Witness for the amended C4 with an always-failing save. -/
theorem cache_write_failure_propagates_witness :
    get_cached_translation wOne.cache
        (pageKey cfgSaveFailW "OpenAI Compatible" "en" wOne.srcDoc 0) = (none, []) ∧
    ((cfgSaveFailW.saveFails (pageKey cfgSaveFailW "OpenAI Compatible" "en" wOne.srcDoc 0) =
        true →
      (processPage cfgSaveFailW "darkred" "OpenAI Compatible" "en" wOne 0).1 =
        .error (.saveFailed (pageKey cfgSaveFailW "OpenAI Compatible" "en" wOne.srcDoc 0)) ∧
      (processPage cfgSaveFailW "darkred" "OpenAI Compatible" "en" wOne 0).2.cache =
        wOne.cache) ∧
    (cfgSaveFailW.saveFails (pageKey cfgSaveFailW "OpenAI Compatible" "en" wOne.srcDoc 0) =
        false →
      (processPage cfgSaveFailW "darkred" "OpenAI Compatible" "en" wOne 0).1 =
        .ok (missDoc cfgSaveFailW "darkred" wOne.srcDoc 0 wOne.trans) ∧
      (processPage cfgSaveFailW "darkred" "OpenAI Compatible" "en" wOne 0).2.cache
          (pageKey cfgSaveFailW "OpenAI Compatible" "en" wOne.srcDoc 0) =
        .good (missDoc cfgSaveFailW "darkred" wOne.srcDoc 0 wOne.trans))) :=
  ⟨by decide, cache_write_failure_propagates cfgSaveFailW "darkred" "OpenAI Compatible" "en"
    wOne 0 [] (by decide) (by decide)⟩

/-- C8 (counterexample): on a cache-miss page with two blocks, the event
trace interleaves translation and compositing — the first block is erased
and rendered before the second block is ever submitted to the translator
— so "every TextBlock is submitted before any compositing operation" is
false. -/
theorem compositing_interleaved_with_translation :
    (processPage cfgOkW "darkred" "OpenAI Compatible" "en" wTwoBlocks 0).2.events =
      [.translateCalled "Hello", .drewRect ⟨0, 0, 10, 10⟩, .insertedHtml ⟨0, 0, 10, 10⟩,
        .translateCalled "World", .drewRect ⟨0, 20, 10, 30⟩,
        .insertedHtml ⟨0, 20, 10, 30⟩] ∧
    exceptIsOk (processPage cfgOkW "darkred" "OpenAI Compatible" "en" wTwoBlocks 0).1 =
      true ∧
    translationsBeforeCompositing
      (processPage cfgOkW "darkred" "OpenAI Compatible" "en" wTwoBlocks 0).2.events =
      false := by
  decide

/-- C8 (amended): on a cache miss the blocks are processed sequentially in
extraction order, but per block: each block is translated and immediately
composited (erase, then render) before the next block is translated — the
page's event trace is exactly `blockTrace` of its blocks, regardless of
whether the final cache save succeeds. -/
theorem per_block_translate_then_composite (cfg : Config) (tc tn tl : String) (w : World)
    (p : Nat) (glog : List Event)
    (hent : get_cached_translation w.cache (pageKey cfg tn tl w.srcDoc p) = (none, glog))
    (hnd : ∀ b ∈ (w.srcDoc.pages.getD p emptyPage).blocks, b.bbox.isEmptyRect = false) :
    (processPage cfg tc tn tl w p).2.events =
      w.events ++ glog ++ blockTrace (w.srcDoc.pages.getD p emptyPage).blocks := by
  rw [processPage_miss cfg tc tn tl w p glog hent hnd]
  by_cases hs : cfg.saveFails (pageKey cfg tn tl w.srcDoc p) = true
  · rw [if_pos hs]
  · rw [if_neg hs]

/-- Witness for the amended C8 on the two-block page. -/
theorem per_block_translate_then_composite_witness :
    get_cached_translation wTwoBlocks.cache
        (pageKey cfgOkW "OpenAI Compatible" "en" wTwoBlocks.srcDoc 0) = (none, []) ∧
    (processPage cfgOkW "darkred" "OpenAI Compatible" "en" wTwoBlocks 0).2.events =
      wTwoBlocks.events ++ [] ++
        blockTrace (wTwoBlocks.srcDoc.pages.getD 0 emptyPage).blocks :=
  ⟨by decide, per_block_translate_then_composite cfgOkW "darkred" "OpenAI Compatible" "en"
    wTwoBlocks 0 [] (by decide) (by decide)⟩

/-- C9 (counterexample): a degenerate bounding box is not absorbed
per-block: with blocks Hello, Bad (empty box), World, the page body
raises `emptyRect`; the trace shows Bad's box was erased but nothing was
rendered into it, and World was never translated nor composited — the
page does not complete. -/
theorem degenerate_bbox_aborts_page :
    (processPage cfgOkW "darkred" "OpenAI Compatible" "en" wBadBlock 0).1 =
      .error .emptyRect ∧
    (processPage cfgOkW "darkred" "OpenAI Compatible" "en" wBadBlock 0).2.events =
      [.translateCalled "Hello", .drewRect ⟨0, 0, 10, 10⟩, .insertedHtml ⟨0, 0, 10, 10⟩,
        .translateCalled "Bad", .drewRect ⟨3, 3, 3, 3⟩] := by
  decide

/-- C9 (amended): when the block loop reaches a block with an empty
bounding box, `insert_htmlbox` raises and the exception escapes the page
body: earlier blocks were composited, the offending block's box was
erased but not rendered, later blocks are never processed, and the page
neither completes nor is cached. -/
theorem render_failure_propagates (cfg : Config) (tc tn tl : String) (w : World) (p : Nat)
    (glog : List Event) (pre post : List TextBlock) (bad : TextBlock)
    (hent : get_cached_translation w.cache (pageKey cfg tn tl w.srcDoc p) = (none, glog))
    (hblocks : (w.srcDoc.pages.getD p emptyPage).blocks = pre ++ bad :: post)
    (hpre : ∀ b ∈ pre, b.bbox.isEmptyRect = false)
    (hbad : bad.bbox.isEmptyRect = true) :
    processPage cfg tc tn tl w p =
      (.error .emptyRect,
        ⟨w.srcDoc, w.cache, transAfter cfg.oracle (pre ++ [bad]) w.trans,
          w.events ++ glog ++ blockTrace pre ++
            [.translateCalled bad.text, .drewRect bad.bbox]⟩) := by
  simp only [pageKey] at hent
  simp only [processPage, hent]
  rw [hblocks]
  rw [compositeBlocks_err cfg.oracle (colorLookup tc) bad hbad post pre _ _ hpre]

/-- Witness for the amended C9 on the page with a degenerate middle
block. -/
theorem render_failure_propagates_witness :
    (wBadBlock.srcDoc.pages.getD 0 emptyPage).blocks =
      [blockHello] ++ blockDegenerate :: [blockWorld] ∧
    processPage cfgOkW "darkred" "OpenAI Compatible" "en" wBadBlock 0 =
      (.error .emptyRect,
        ⟨wBadBlock.srcDoc, wBadBlock.cache,
          transAfter cfgOkW.oracle ([blockHello] ++ [blockDegenerate]) wBadBlock.trans,
          wBadBlock.events ++ [] ++ blockTrace [blockHello] ++
            [.translateCalled blockDegenerate.text, .drewRect blockDegenerate.bbox]⟩) :=
  ⟨by decide, render_failure_propagates cfgOkW "darkred" "OpenAI Compatible" "en" wBadBlock 0
    [] [blockHello] [blockWorld] blockDegenerate (by decide) (by decide) (by decide)
    (by decide)⟩

end PdfTranslator
